import Mathlib

/-!
Verification of the scope-forest algorithms of `TreeScope.cpp`
(`blink::TreeScope`): position comparison, common-ancestor computation,
retargeting, adjusted-element lookup, the lazily created identifier index,
and the access-key scan.

Scopes and nodes are represented by natural-number identifiers; the forest
structure (parent links, older-shadow-root links, shadow hosts) is a record
of functions, mirroring the pointer fields `parent_tree_scope_`,
`ShadowRoot::OlderShadowRoot()` and `Node::ParentOrShadowHostNode()`.
Walks that the C++ performs by pointer chasing (guaranteed finite by the
tree invariant) are given explicit fuel and return `none` when the fuel is
exhausted; every theorem assumes the walk terminates, exactly as the C++
assumes acyclicity.
-/

/-- Scope identifiers (one per `TreeScope` object). -/
abbrev ScopeId := Nat

/-- Node identifiers (for shadow-host nodes and elements). -/
abbrev NodeId := Nat

/-- `Node::kDocumentPositionEquivalent`. -/
def kDocumentPositionEquivalent : Nat := 0x00

/-- `Node::kDocumentPositionDisconnected`. -/
def kDocumentPositionDisconnected : Nat := 0x01

/-- `Node::kDocumentPositionPreceding`. -/
def kDocumentPositionPreceding : Nat := 0x02

/-- `Node::kDocumentPositionFollowing`. -/
def kDocumentPositionFollowing : Nat := 0x04

/-- `Node::kDocumentPositionContains`. -/
def kDocumentPositionContains : Nat := 0x08

/-- `Node::kDocumentPositionContainedBy`. -/
def kDocumentPositionContainedBy : Nat := 0x10

/-- `Node::kDocumentPositionImplementationSpecific`. -/
def kDocumentPositionImplementationSpecific : Nat := 0x20

/-- The scope forest: for each scope, its `parent_tree_scope_` (none for the
document scope), the scope of the older shadow root of its root node
(`ToShadowRoot(RootNode()).OlderShadowRoot()`, none when the root is not a
shadow root or has no older sibling), and the shadow-host node of its root
(`RootNode().ParentOrShadowHostNode()`). -/
structure TreeScopeForest where
  parent : ScopeId → Option ScopeId
  olderShadowRoot : ScopeId → Option ScopeId
  shadowHost : ScopeId → Option NodeId

/-- The ancestor chain of a scope, self first and document scope last,
as built by `for (current = this; current; current = current->ParentTreeScope())
chain.push_back(current)`. Fuel bounds the walk; `none` means the walk did
not reach a parentless scope within the fuel (impossible in the C++ by the
tree invariant). -/
def buildChain (F : TreeScopeForest) : Nat → ScopeId → Option (List ScopeId)
  | 0, _ => none
  | fuel + 1, s =>
    match F.parent s with
    | none => some [s]
    | some p => (buildChain F fuel p).map (s :: ·)

/-- The walk `for (child = older; child; child = child->OlderShadowRoot())
if (child == child1) ...` of `TreeScope::ComparePosition`: does `target`
appear in the older-shadow-root stack starting at `start`?  `none` = fuel
exhausted. -/
def olderStackFind (F : TreeScopeForest) :
    Nat → Option ScopeId → ScopeId → Option Bool
  | _, none, _ => some false
  | 0, some _, _ => none
  | fuel + 1, some s, target =>
    if s = target then some true
    else olderStackFind F fuel (F.olderShadowRoot s) target

/-- The main loop of `TreeScope::ComparePosition`, operating on the two
ancestor chains *reversed* (document scope first), which is exactly the
C++ iteration from `chain[size - 1]` downwards.  When both lists run out
together, or the first runs out... the leftover lengths reproduce
`index1 < index2 ? Following|ContainedBy : Preceding|Contains`.  At the
first divergent pair the C++ consults the roots' shadow hosts: if they
differ it delegates to `shadow_host1->compareDocumentPosition(shadow_host2,
kTreatShadowTreesAsDisconnected)` — an external collaborator, passed in
here as `hostCmp` — otherwise it walks `child2`'s older-shadow-root stack
looking for `child1`. -/
def comparePositionFromDocEnd (F : TreeScopeForest)
    (hostCmp : Option NodeId → Option NodeId → Nat) (fuel : Nat) :
    List ScopeId → List ScopeId → Option Nat
  | [], [] => some (kDocumentPositionPreceding ||| kDocumentPositionContains)
  | [], _ :: _ =>
    some (kDocumentPositionFollowing ||| kDocumentPositionContainedBy)
  | _ :: _, [] =>
    some (kDocumentPositionPreceding ||| kDocumentPositionContains)
  | c1 :: t1, c2 :: t2 =>
    if c1 = c2 then comparePositionFromDocEnd F hostCmp fuel t1 t2
    else if F.shadowHost c1 ≠ F.shadowHost c2 then
      some (hostCmp (F.shadowHost c1) (F.shadowHost c2))
    else
      (olderStackFind F fuel (F.olderShadowRoot c2) c1).map
        (fun found =>
          if found then kDocumentPositionFollowing
          else kDocumentPositionPreceding)

/-- `TreeScope::ComparePosition(other_scope)`: equivalent for the same
scope; otherwise build both ancestor chains; if the document-end entries
differ, report disconnected + implementation-specific; otherwise walk both
chains synchronously from the document end. `a` plays `this`, `b` plays
`other_scope`; the verdict describes `b`'s position relative to `a`. -/
def ComparePosition (F : TreeScopeForest)
    (hostCmp : Option NodeId → Option NodeId → Nat) (fuel : Nat)
    (a b : ScopeId) : Option Nat :=
  if a = b then some kDocumentPositionEquivalent
  else
    (buildChain F fuel a).bind fun chain1 =>
    (buildChain F fuel b).bind fun chain2 =>
    if chain1.getLast? ≠ chain2.getLast? then
      some (kDocumentPositionDisconnected |||
            kDocumentPositionImplementationSpecific)
    else comparePositionFromDocEnd F hostCmp fuel chain1.reverse
           chain2.reverse

theorem buildChain_ne_nil (F : TreeScopeForest) (fuel : Nat) (s : ScopeId)
    (l : List ScopeId) (h : buildChain F fuel s = some l) : l ≠ [] := by
  cases fuel with
  | zero => simp [buildChain] at h
  | succ n =>
    cases hp : F.parent s with
    | none =>
      simp [buildChain, hp] at h
      simp [← h]
    | some p =>
      simp [buildChain, hp] at h
      obtain ⟨l', _, hl⟩ := h
      simp [← hl]

theorem buildChain_head (F : TreeScopeForest) (fuel : Nat) (s : ScopeId)
    (l : List ScopeId) (h : buildChain F fuel s = some l) :
    l.head? = some s := by
  cases fuel with
  | zero => simp [buildChain] at h
  | succ n =>
    cases hp : F.parent s with
    | none =>
      simp [buildChain, hp] at h
      simp [← h]
    | some p =>
      simp [buildChain, hp] at h
      obtain ⟨l', _, hl⟩ := h
      simp [← hl]

/-- When one reversed chain is extended by a nonempty tail, the synchronous
walk consumes the shared part and lands in the "one chain fully consumed"
case with the first chain shorter: `Following | ContainedBy`. -/
theorem comparePositionFromDocEnd_shorter (F : TreeScopeForest)
    (hostCmp : Option NodeId → Option NodeId → Nat) (fuel : Nat)
    (l ext : List ScopeId) (hne : ext ≠ []) :
    comparePositionFromDocEnd F hostCmp fuel l (l ++ ext) =
      some (kDocumentPositionFollowing ||| kDocumentPositionContainedBy) := by
  induction l with
  | nil =>
    cases ext with
    | nil => exact absurd rfl hne
    | cons x t => simp [comparePositionFromDocEnd]
  | cons x t ih => simpa [comparePositionFromDocEnd] using ih

/-- Mirror image of `comparePositionFromDocEnd_shorter`: the first chain is
the longer one, verdict `Preceding | Contains`. -/
theorem comparePositionFromDocEnd_longer (F : TreeScopeForest)
    (hostCmp : Option NodeId → Option NodeId → Nat) (fuel : Nat)
    (l ext : List ScopeId) :
    comparePositionFromDocEnd F hostCmp fuel (l ++ ext) l =
      some (kDocumentPositionPreceding ||| kDocumentPositionContains) := by
  induction l with
  | nil =>
    cases ext with
    | nil => simp [comparePositionFromDocEnd]
    | cons x t => simp [comparePositionFromDocEnd]
  | cons x t ih => simpa [comparePositionFromDocEnd] using ih

/-- C1: For every pair of connected scopes where one scope's ancestor chain
is a strict prefix, from the document end, of the other's (`b`'s chain is
`a`'s chain with the nonempty segment `ext` below it), `ComparePosition`
reports the ancestor relation: with the verdict describing the `other`
argument, the longer chain's scope is reported "following + contained-by"
(`ComparePosition a b`, `a` the ancestor), and the shorter chain's scope is
reported "preceding + contains" (`ComparePosition b a`). -/
theorem ComparePosition_chain_strict_suffix (F : TreeScopeForest)
    (hostCmp : Option NodeId → Option NodeId → Nat) (fuel : Nat)
    (a b : ScopeId) (ca ext : List ScopeId)
    (ha : buildChain F fuel a = some ca)
    (hb : buildChain F fuel b = some (ext ++ ca))
    (hne : ext ≠ []) :
    ComparePosition F hostCmp fuel a b =
      some (kDocumentPositionFollowing ||| kDocumentPositionContainedBy) ∧
    ComparePosition F hostCmp fuel b a =
      some (kDocumentPositionPreceding ||| kDocumentPositionContains) := by
  have hca : ca ≠ [] := buildChain_ne_nil F fuel a ca ha
  have hab : a ≠ b := by
    intro h
    rw [h, hb] at ha
    have hx : ext ++ ca = ca := Option.some.inj ha
    have : ext = [] := by simpa using congrArg List.length hx
    exact hne this
  have hlast : (ext ++ ca).getLast? = ca.getLast? := by
    rw [List.getLast?_append]
    obtain ⟨x, hx⟩ :=
      Option.isSome_iff_exists.mp (List.getLast?_isSome.mpr hca)
    rw [hx]
    rfl
  constructor
  · simp only [ComparePosition, if_neg hab, ha, hb, Option.some_bind]
    rw [if_neg (by simp [hlast]), List.reverse_append]
    exact comparePositionFromDocEnd_shorter F hostCmp fuel ca.reverse
      ext.reverse (by simpa using hne)
  · simp only [ComparePosition, if_neg (Ne.symm hab), ha, hb,
      Option.some_bind]
    rw [if_neg (by simp [hlast]), List.reverse_append]
    exact comparePositionFromDocEnd_longer F hostCmp fuel ca.reverse
      ext.reverse

/-- Witness for C1: a two-scope forest, scope 1 the document scope and
scope 0 its child.  Scope 1's chain `[1]` is a strict document-end prefix
of scope 0's chain `[0, 1]`. -/
theorem ComparePosition_chain_strict_suffix_witness :
    ComparePosition ⟨fun s => if s = 0 then some 1 else none,
        fun _ => none, fun _ => none⟩ (fun _ _ => 0) 2 1 0 =
      some (kDocumentPositionFollowing ||| kDocumentPositionContainedBy) ∧
    ComparePosition ⟨fun s => if s = 0 then some 1 else none,
        fun _ => none, fun _ => none⟩ (fun _ _ => 0) 2 0 1 =
      some (kDocumentPositionPreceding ||| kDocumentPositionContains) :=
  ComparePosition_chain_strict_suffix
    ⟨fun s => if s = 0 then some 1 else none, fun _ => none, fun _ => none⟩
    (fun _ _ => 0) 2 1 0 [1] [0] (by decide) (by decide) (by decide)

/-- Divergence step of the synchronous walk: after consuming the shared
run `pre`, the first divergent pair `(c1, c2)` triggers the shadow-host
comparison, and, when the hosts coincide, the older-shadow-root-stack
walk of `TreeScope::ComparePosition`. -/
theorem comparePositionFromDocEnd_diverge (F : TreeScopeForest)
    (hostCmp : Option NodeId → Option NodeId → Nat) (fuel : Nat)
    (pre s1 s2 : List ScopeId) (c1 c2 : ScopeId) (hc : c1 ≠ c2) :
    comparePositionFromDocEnd F hostCmp fuel (pre ++ c1 :: s1)
      (pre ++ c2 :: s2) =
    if F.shadowHost c1 ≠ F.shadowHost c2 then
      some (hostCmp (F.shadowHost c1) (F.shadowHost c2))
    else
      (olderStackFind F fuel (F.olderShadowRoot c2) c1).map
        (fun found =>
          if found then kDocumentPositionFollowing
          else kDocumentPositionPreceding) := by
  induction pre with
  | nil => simp [comparePositionFromDocEnd, if_neg hc]
  | cons x t ih => simpa [comparePositionFromDocEnd] using ih

/-- C2: when the two ancestor chains, walked from the document end, share
the nonempty run `pre` and then diverge at the shadow roots `c1` (on
`a`'s chain) and `c2` (on `b`'s chain) whose roots have the same shadow
host, `ComparePosition` walks the older-shadow-root stack starting at
`c2`'s root's older sibling: if `c1` appears there (`tf = true`), the
verdict is "following" for `other` (`c1` precedes `c2`), otherwise
"preceding" (`c1` follows `c2`). -/
theorem ComparePosition_shadow_generations (F : TreeScopeForest)
    (hostCmp : Option NodeId → Option NodeId → Nat) (fuel : Nat)
    (a b : ScopeId) (pre s1 s2 : List ScopeId) (c1 c2 : ScopeId) (tf : Bool)
    (ha : buildChain F fuel a = some (pre ++ c1 :: s1).reverse)
    (hb : buildChain F fuel b = some (pre ++ c2 :: s2).reverse)
    (hpre : pre ≠ []) (hc : c1 ≠ c2)
    (hhost : F.shadowHost c1 = F.shadowHost c2)
    (hold : olderStackFind F fuel (F.olderShadowRoot c2) c1 = some tf) :
    ComparePosition F hostCmp fuel a b =
      some (if tf then kDocumentPositionFollowing
            else kDocumentPositionPreceding) := by
  have hab : a ≠ b := by
    intro h
    rw [h, hb] at ha
    have hx := List.reverse_injective (Option.some.inj ha)
    have h2 := List.append_cancel_left hx
    injection h2 with h3 _
    exact hc h3.symm
  have hheads : (pre ++ c1 :: s1).head? = (pre ++ c2 :: s2).head? := by
    cases pre with
    | nil => exact absurd rfl hpre
    | cons q qt => simp
  have hg : ((pre ++ c1 :: s1).reverse).getLast? =
      ((pre ++ c2 :: s2).reverse).getLast? := by
    rw [List.getLast?_reverse, List.getLast?_reverse, hheads]
  simp only [ComparePosition, if_neg hab, ha, hb, Option.some_bind]
  rw [if_neg (by rw [hg]; exact fun hneq => hneq rfl),
    List.reverse_reverse, List.reverse_reverse,
    comparePositionFromDocEnd_diverge F hostCmp fuel pre s1 s2 c1 c2 hc,
    if_neg (by simp [hhost]), hold]
  rfl

/-- Witness for C2, the claim's G1/G2 scenario: scope 0 is the document
scope, scopes 1 (G1, oldest) and 2 (G2, newer) are two shadow generations
on the same host node 7, `olderShadowRoot 2 = some 1`.
`ComparePosition(G1, G2)` reports "following" for `other` = G2, i.e. G1
precedes G2. -/
theorem ComparePosition_shadow_generations_witness :
    ComparePosition
      ⟨fun s => if s = 0 then none else some 0,
       fun s => if s = 2 then some 1 else none,
       fun s => if s = 0 then none else some 7⟩
      (fun _ _ => 0) 3 1 2 = some kDocumentPositionFollowing :=
  ComparePosition_shadow_generations
    ⟨fun s => if s = 0 then none else some 0,
     fun s => if s = 2 then some 1 else none,
     fun s => if s = 0 then none else some 7⟩
    (fun _ _ => 0) 3 1 2 [0] [] [] 1 2 true (by decide) (by decide)
    (by decide) (by decide) (by decide) (by decide)

/-- Fallback combinator for option accumulators: keep `a` if present,
else `b`. -/
def orD (a b : Option Nat) : Option Nat :=
  match a with
  | some x => some x
  | none => b

theorem orD_none (a : Option Nat) : orD a none = a := by
  cases a <;> rfl

theorem getLast?_cons_orD (x : Nat) (m : List Nat) :
    (x :: m).getLast? = orD m.getLast? (some x) := by
  cases m with
  | nil => rfl
  | cons y t =>
    rw [List.getLast?_cons_cons]
    obtain ⟨z, hz⟩ :=
      Option.isSome_iff_exists.mp (List.getLast?_isSome.mpr
        (List.cons_ne_nil y t))
    rw [hz]
    rfl

/-- The run of scopes popped while the two chains' document-end tails
stay equal, written from the spec's words ("popping matching tails while
they are equal"); the inputs here are the *reversed* chains (document
scope first). -/
def matchingRun : List ScopeId → List ScopeId → List ScopeId
  | x :: t1, y :: t2 => if x = y then x :: matchingRun t1 t2 else []
  | _, _ => []

/-- The `while (!this_chain.IsEmpty() && !other_chain.IsEmpty() &&
this_chain.back() == other_chain.back()) last_ancestor = ...` loop of
`TreeScope::CommonAncestorTreeScope`, on the reversed chains. -/
def lastCommonWhilePopping :
    List ScopeId → List ScopeId → Option ScopeId → Option ScopeId
  | x :: t1, y :: t2, acc =>
    if x = y then lastCommonWhilePopping t1 t2 (some x) else acc
  | _, _, acc => acc

/-- `TreeScope::CommonAncestorTreeScope(other)`: build both ancestor
chains, pop matching document-end tails, return the last scope that
matched (`nullptr`, here the inner `none`, when the document ends never
matched).  The outer `Option` is fuel exhaustion of the chain walk. -/
def CommonAncestorTreeScope (F : TreeScopeForest) (fuel : Nat)
    (a b : ScopeId) : Option (Option ScopeId) :=
  (buildChain F fuel a).bind fun thisChain =>
  (buildChain F fuel b).bind fun otherChain =>
  some (lastCommonWhilePopping thisChain.reverse otherChain.reverse none)

theorem lastCommonWhilePopping_eq (l1 : List ScopeId) :
    ∀ (l2 : List ScopeId) (acc : Option ScopeId),
      lastCommonWhilePopping l1 l2 acc =
        orD (matchingRun l1 l2).getLast? acc := by
  induction l1 with
  | nil => intro l2 acc; cases l2 <;> rfl
  | cons x t1 ih =>
    intro l2 acc
    cases l2 with
    | nil => rfl
    | cons y t2 =>
      by_cases hxy : x = y
      · rw [lastCommonWhilePopping, if_pos hxy, matchingRun, if_pos hxy,
          ih t2 (some x), getLast?_cons_orD]
        cases hm : (matchingRun t1 t2).getLast? <;> rfl
      · rw [lastCommonWhilePopping, if_neg hxy, matchingRun, if_neg hxy]
        rfl

theorem matchingRun_nil_of_head_ne (l1 l2 : List ScopeId)
    (h : l1.head? ≠ l2.head?) : matchingRun l1 l2 = [] := by
  cases l1 with
  | nil => cases l2 <;> rfl
  | cons x t1 =>
    cases l2 with
    | nil => rfl
    | cons y t2 =>
      rw [matchingRun, if_neg]
      intro hxy
      exact h (by simp [hxy])

/-- C8: `CommonAncestorTreeScope(a, b)` returns the last scope of the
matching document-end run of the two ancestor chains, and when the
document-end entries of the chains never matched (disconnected forests)
it returns the explicit absent value `none` — the operation is total, no
fault is thrown. -/
theorem CommonAncestorTreeScope_spec (F : TreeScopeForest) (fuel : Nat)
    (a b : ScopeId) (c1 c2 : List ScopeId)
    (ha : buildChain F fuel a = some c1)
    (hb : buildChain F fuel b = some c2) :
    CommonAncestorTreeScope F fuel a b =
      some ((matchingRun c1.reverse c2.reverse).getLast?) ∧
    (c1.getLast? ≠ c2.getLast? →
      CommonAncestorTreeScope F fuel a b = some none) := by
  have hmain : CommonAncestorTreeScope F fuel a b =
      some ((matchingRun c1.reverse c2.reverse).getLast?) := by
    simp only [CommonAncestorTreeScope, ha, hb, Option.some_bind]
    rw [lastCommonWhilePopping_eq, orD_none]
  refine ⟨hmain, fun hne => ?_⟩
  rw [hmain, matchingRun_nil_of_head_ne]
  · rfl
  · simpa [List.head?_reverse] using hne

/-- Witness for C8: two single-scope forests rooted at different document
scopes (0 and 1) are disconnected; the common ancestor is the explicit
absent value. -/
theorem CommonAncestorTreeScope_spec_witness :
    CommonAncestorTreeScope ⟨fun _ => none, fun _ => none, fun _ => none⟩
        1 0 1 = some ((matchingRun [0] [1]).getLast?) ∧
    CommonAncestorTreeScope ⟨fun _ => none, fun _ => none, fun _ => none⟩
        1 0 1 = some none := by
  have h := CommonAncestorTreeScope_spec
    ⟨fun _ => none, fun _ => none, fun _ => none⟩ 1 0 1 [0] [1]
    (by decide) (by decide)
  exact ⟨by simpa using h.1, h.2 (by decide)⟩

/-- State for the adoption operation: per scope its `parent_tree_scope_`,
its `document_` reference, and whether its root node is a document node
(`RootNode().IsDocumentNode()`). -/
structure AdoptForest where
  parent : ScopeId → Option ScopeId
  doc : ScopeId → Nat
  rootIsDocumentNode : ScopeId → Bool

/-- Does walking `parent` links upward from `s` (inclusively) reach `r`
within `fuel` steps? -/
def reachesUp (par : ScopeId → Option ScopeId) :
    Nat → ScopeId → ScopeId → Bool
  | 0, s, r => s == r
  | fuel + 1, s, r =>
    s == r ||
      match par s with
      | none => false
      | some p => reachesUp par fuel p r

/-- `TreeScope::SetParentTreeScope(new_parent_scope)`:
`DCHECK(!RootNode().IsDocumentNode())` — modelled as returning `none`
(assertion failure) — then `parent_tree_scope_ = &new_parent_scope;
SetDocument(new_parent_scope.GetDocument())`.

Modelled from the spec: `SetDocument` and the recursive re-scoping done by
`TreeScopeAdopter` are declared outside this source file; per the spec
(§4.1), the new document reference is propagated to every scope reachable
below the re-parented scope, so the document of any scope whose upward
parent walk passes through `r` becomes the new parent's document. -/
def adoptedParent (S : AdoptForest) (r p : ScopeId) :
    ScopeId → Option ScopeId :=
  fun s => if s = r then some p else S.parent s

def SetParentTreeScope (S : AdoptForest) (r p : ScopeId) (fuel : Nat) :
    Option AdoptForest :=
  if S.rootIsDocumentNode r then none
  else
    some { parent := adoptedParent S r p,
           doc := fun s =>
             if reachesUp (adoptedParent S r p) fuel s r then S.doc p
             else S.doc s,
           rootIsDocumentNode := S.rootIsDocumentNode }

theorem reachesUp_self (par : ScopeId → Option ScopeId) (fuel : Nat)
    (r : ScopeId) : reachesUp par fuel r r = true := by
  cases fuel <;> simp [reachesUp]

/-- C3: re-parenting a document-root scope is a programming error
(assertion failure, modelled as `none`); otherwise `SetParentTreeScope`
installs the new parent, sets this scope's document to the new parent's
document, and every scope whose parent chain passes through the
re-parented scope now reports the new parent's document. -/
theorem SetParentTreeScope_spec (S : AdoptForest) (r p : ScopeId)
    (fuel : Nat) :
    (S.rootIsDocumentNode r = true → SetParentTreeScope S r p fuel = none) ∧
    (S.rootIsDocumentNode r = false →
      ∃ S1, SetParentTreeScope S r p fuel = some S1 ∧
        S1.parent r = some p ∧
        S1.doc r = S.doc p ∧
        (∀ s, reachesUp S1.parent fuel s r = true → S1.doc s = S.doc p) ∧
        (∀ s, reachesUp S1.parent fuel s r = false → S1.doc s = S.doc s)) := by
  constructor
  · intro hdoc
    simp [SetParentTreeScope, hdoc]
  · intro hdoc
    have hstep : SetParentTreeScope S r p fuel =
        some { parent := adoptedParent S r p,
               doc := fun s =>
                 if reachesUp (adoptedParent S r p) fuel s r then S.doc p
                 else S.doc s,
               rootIsDocumentNode := S.rootIsDocumentNode } := by
      simp only [SetParentTreeScope]
      rw [if_neg (by simp [hdoc])]
    refine ⟨_, hstep, ?_, ?_, ?_, ?_⟩
    · simp [adoptedParent]
    · simp [reachesUp_self]
    · intro s hreach
      simp only [] at hreach
      simp [hreach]
    · intro s hreach
      simp only [] at hreach
      simp [hreach]

/-- Witness for C3: scope 0 is the document-root scope (document 0), scope
1 hangs below it, scope 3 below scope 1, and scope 2 is the root of a
second document 5.  Re-parenting scope 0 fails; re-parenting scope 1 under
scope 2 succeeds and scope 3, below scope 1, now reports document 5. -/
theorem SetParentTreeScope_spec_witness :
    (SetParentTreeScope
      ⟨fun s => if s = 1 then some 0 else if s = 3 then some 1 else none,
       fun s => if s = 2 then 5 else 0, fun s => s == 0 || s == 2⟩
      0 2 3 = none) ∧
    (∃ S1, SetParentTreeScope
      ⟨fun s => if s = 1 then some 0 else if s = 3 then some 1 else none,
       fun s => if s = 2 then 5 else 0, fun s => s == 0 || s == 2⟩
      1 2 3 = some S1 ∧
        S1.parent 1 = some 2 ∧
        S1.doc 1 = 5 ∧
        (∀ s, reachesUp S1.parent 3 s 1 = true → S1.doc s = 5) ∧
        (∀ s, reachesUp S1.parent 3 s 1 = false →
          S1.doc s = (if s = 2 then 5 else 0))) :=
  ⟨(SetParentTreeScope_spec
      ⟨fun s => if s = 1 then some 0 else if s = 3 then some 1 else none,
       fun s => if s = 2 then 5 else 0, fun s => s == 0 || s == 2⟩
      0 2 3).1 (by decide),
   (SetParentTreeScope_spec
      ⟨fun s => if s = 1 then some 0 else if s = 3 then some 1 else none,
       fun s => if s = 2 then 5 else 0, fun s => s == 0 || s == 2⟩
      1 2 3).2 (by decide)⟩

/-- Element-side view of the tree for retargeting: each element's owning
scope (`Element::GetTreeScope()`), its encapsulation host
(`Element::OwnerShadowHost()`, none when the element is not in a shadow
tree), and whether the element hosts a V1 (strict-encapsulation) shadow
root (`Element::ShadowRootIfV1() != nullptr`). -/
structure ElemForest where
  scope : NodeId → ScopeId
  ownerShadowHost : NodeId → Option NodeId
  shadowRootIsV1 : NodeId → Bool

/-- The chain of encapsulation hosts starting at an element:
self, host-of-self, host-of-host, ….  `none` = fuel exhausted before the
chain ended. -/
def hostChain (E : ElemForest) : Nat → NodeId → Option (List NodeId)
  | 0, _ => none
  | fuel + 1, e =>
    match E.ownerShadowHost e with
    | none => some [e]
    | some h => (hostChain E fuel h).map (e :: ·)

/-- `TreeScope::Retarget(target)`: `for (ancestor = &target; ancestor;
ancestor = ancestor->OwnerShadowHost()) if (this == ancestor->GetTreeScope())
return ancestor; return nullptr`.  The scope `S` plays `this`.  Outer
`Option` = fuel exhaustion, inner `Option` = the C++ nullable result. -/
def Retarget (E : ElemForest) : Nat → ScopeId → NodeId →
    Option (Option NodeId)
  | 0, _, _ => none
  | fuel + 1, S, e =>
    if E.scope e = S then some (some e)
    else
      match E.ownerShadowHost e with
      | none => some none
      | some h => Retarget E fuel S h

/-- `TreeScope::AdjustedElement(target)`: the same host-chain walk, with an
accumulator `adj` for `adjusted_target`, overwritten by every visited
ancestor that hosts a V1 shadow root (checked *before* the scope test, as
in the C++ loop body). -/
def AdjustedElementLoop (E : ElemForest) : Nat → ScopeId → NodeId →
    NodeId → Option (Option NodeId)
  | 0, _, _, _ => none
  | fuel + 1, S, adj, e =>
    let adj1 := if E.shadowRootIsV1 e then e else adj
    if E.scope e = S then some (some adj1)
    else
      match E.ownerShadowHost e with
      | none => some none
      | some h => AdjustedElementLoop E fuel S adj1 h

/-- `TreeScope::AdjustedElement(target)` starts with
`adjusted_target = &target`. -/
def AdjustedElement (E : ElemForest) (fuel : Nat) (S : ScopeId)
    (e : NodeId) : Option (Option NodeId) :=
  AdjustedElementLoop E fuel S e e

/-- C4: `Retarget(S, e)` walks the chain of encapsulation hosts of `e` and
returns the first element of that chain whose owning scope is `S`
(`List.find?` on the host chain); in particular it returns `e` itself when
`e`'s own scope is `S`, and `none` when no element of the chain belongs to
`S`. -/
theorem Retarget_spec (E : ElemForest) (fuel : Nat) (S : ScopeId)
    (e : NodeId) (l : List NodeId) (h : hostChain E fuel e = some l) :
    Retarget E fuel S e =
      some (l.find? (fun x => E.scope x == S)) ∧
    (E.scope e = S → l.find? (fun x => E.scope x == S) = some e) ∧
    ((∀ x ∈ l, E.scope x ≠ S) →
      l.find? (fun x => E.scope x == S) = none) := by
  refine ⟨?_, ?_, ?_⟩
  · induction fuel generalizing e l with
    | zero => simp [hostChain] at h
    | succ n ih =>
      cases hh : E.ownerShadowHost e with
      | none =>
        simp [hostChain, hh] at h
        by_cases hs : E.scope e = S
        · simp [Retarget, hs, ← h, List.find?, hs]
        · simp [Retarget, hs, hh, ← h, List.find?]
      | some host =>
        simp [hostChain, hh] at h
        obtain ⟨l', hl', rfl⟩ := h
        by_cases hs : E.scope e = S
        · simp [Retarget, hs, List.find?, hs]
        · rw [Retarget, if_neg hs]
          simp only [hh]
          rw [ih host l' hl']
          have hbeq : (E.scope e == S) = false := by simp [hs]
          simp [List.find?, hbeq]
  · intro hs
    have hhead : l.head? = some e := by
      cases fuel with
      | zero => simp [hostChain] at h
      | succ n =>
        cases hh : E.ownerShadowHost e with
        | none => simp [hostChain, hh] at h; simp [← h]
        | some host =>
          simp [hostChain, hh] at h
          obtain ⟨l', _, hl⟩ := h
          simp [← hl]
    cases l with
    | nil => simp at hhead
    | cons x t =>
      have hx : x = e := by simpa using hhead
      simp [List.find?, hx, hs]
  · intro hall
    rw [List.find?_eq_none]
    intro x hx
    simpa using hall x hx

/-- Witness for C4: element 0 lives in scope 3 inside host 1 (scope 0);
retargeting element 0 into scope 0 yields host 1, retargeting into its own
scope 3 yields element 0 itself, and retargeting into the unrelated scope
9 yields the absent value. -/
theorem Retarget_spec_witness :
    Retarget ⟨fun x => if x = 0 then 3 else 0,
        fun x => if x = 0 then some 1 else none, fun _ => false⟩ 2 0 0 =
      some (([0, 1].find? (fun x =>
        (if x = 0 then 3 else 0) == (0 : Nat)))) ∧
    Retarget ⟨fun x => if x = 0 then 3 else 0,
        fun x => if x = 0 then some 1 else none, fun _ => false⟩ 2 3 0 =
      some (some 0) ∧
    Retarget ⟨fun x => if x = 0 then 3 else 0,
        fun x => if x = 0 then some 1 else none, fun _ => false⟩ 2 9 0 =
      some none := by
  have h1 := Retarget_spec ⟨fun x => if x = 0 then 3 else 0,
    fun x => if x = 0 then some 1 else none, fun _ => false⟩ 2 0 0 [0, 1]
    (by decide)
  have h2 := Retarget_spec ⟨fun x => if x = 0 then 3 else 0,
    fun x => if x = 0 then some 1 else none, fun _ => false⟩ 2 3 0 [0, 1]
    (by decide)
  have h3 := Retarget_spec ⟨fun x => if x = 0 then 3 else 0,
    fun x => if x = 0 then some 1 else none, fun _ => false⟩ 2 9 0 [0, 1]
    (by decide)
  refine ⟨h1.1, ?_, ?_⟩
  · rw [h2.1, h2.2.1 (by decide)]
  · rw [h3.1, h3.2.2 (by decide)]

/-- The elements of a host chain that the `AdjustedElement` loop actually
visits: everything up to and including the first element whose scope
matches `S`. -/
def visitedUpToMatch (E : ElemForest) (S : ScopeId) :
    List NodeId → List NodeId
  | [] => []
  | x :: t =>
    if E.scope x = S then [x] else x :: visitedUpToMatch E S t

/-- The final value of `adjusted_target`: the last visited element that
hosts a V1 (strict) shadow root, defaulting to `d` (the raw target) when
no visited element does. -/
def lastV1Host (E : ElemForest) (d : NodeId) (l : List NodeId) : NodeId :=
  match (l.filter E.shadowRootIsV1).getLast? with
  | some x => x
  | none => d

theorem lastV1Host_cons (E : ElemForest) (d x : NodeId) (t : List NodeId) :
    lastV1Host E d (x :: t) =
      lastV1Host E (if E.shadowRootIsV1 x then x else d) t := by
  by_cases hv : E.shadowRootIsV1 x
  · rw [lastV1Host, List.filter_cons_of_pos hv, getLast?_cons_orD,
      if_pos hv]
    cases hf : ((t.filter E.shadowRootIsV1).getLast?) <;>
      simp [lastV1Host, orD, hf]
  · rw [lastV1Host, List.filter_cons_of_neg (by simpa using hv),
      if_neg hv]
    rfl

theorem AdjustedElementLoop_eq (E : ElemForest) (fuel : Nat) (S : ScopeId)
    (e : NodeId) (l : List NodeId) (h : hostChain E fuel e = some l) :
    ∀ adj, AdjustedElementLoop E fuel S adj e =
      if (l.find? (fun x => E.scope x == S)).isSome then
        some (some (lastV1Host E adj (visitedUpToMatch E S l)))
      else some none := by
  induction fuel generalizing e l with
  | zero => simp [hostChain] at h
  | succ n ih =>
    intro adj
    cases hh : E.ownerShadowHost e with
    | none =>
      simp [hostChain, hh] at h
      subst h
      by_cases hs : E.scope e = S
      · have hbeq : (E.scope e == S) = true := by simp [hs]
        rw [AdjustedElementLoop]
        simp only [if_pos hs]
        rw [visitedUpToMatch, if_pos hs, List.find?]
        rw [hbeq]
        by_cases hv : E.shadowRootIsV1 e <;>
          simp [lastV1Host_cons, lastV1Host, hv]
      · have hbeq : (E.scope e == S) = false := by simp [hs]
        rw [AdjustedElementLoop]
        simp only [if_neg hs, hh]
        rw [List.find?, hbeq]
        simp [List.find?]
    | some host =>
      simp [hostChain, hh] at h
      obtain ⟨l', hl', rfl⟩ := h
      by_cases hs : E.scope e = S
      · have hbeq : (E.scope e == S) = true := by simp [hs]
        rw [AdjustedElementLoop]
        simp only [if_pos hs]
        rw [visitedUpToMatch, if_pos hs, List.find?, hbeq]
        by_cases hv : E.shadowRootIsV1 e <;>
          simp [lastV1Host_cons, lastV1Host, hv]
      · have hbeq : (E.scope e == S) = false := by simp [hs]
        rw [AdjustedElementLoop]
        simp only [if_neg hs, hh]
        rw [ih host l' hl', List.find?, hbeq]
        rw [visitedUpToMatch, if_neg hs, lastV1Host_cons]

/-- C5: `AdjustedElement(S, e)` performs the same host-chain walk as
`Retarget`, but when the scope match is found it returns the last
visited element that hosts a strict (V1) shadow root — the closest
strictly-encapsulating host passed on the way — defaulting to the raw
target when none was passed; weaker encapsulation modes never overwrite
`adjusted_target`.  When no element of the chain belongs to `S` the
result is the absent value. -/
theorem AdjustedElement_spec (E : ElemForest) (fuel : Nat) (S : ScopeId)
    (e : NodeId) (l : List NodeId) (h : hostChain E fuel e = some l) :
    ((l.find? (fun x => E.scope x == S)).isSome = true →
      AdjustedElement E fuel S e =
        some (some (lastV1Host E e (visitedUpToMatch E S l)))) ∧
    (l.find? (fun x => E.scope x == S) = none →
      AdjustedElement E fuel S e = some none) := by
  constructor
  · intro hfind
    rw [AdjustedElement, AdjustedElementLoop_eq E fuel S e l h e,
      if_pos hfind]
  · intro hfind
    rw [AdjustedElement, AdjustedElementLoop_eq E fuel S e l h e]
    simp [hfind]

/-- Witness for C5, the claim's scenario: document scope 0 (D) contains
host 1 (H) whose strict/V1 shadow root is scope 1 holding element 0 (E).
`AdjustedElement(D, E)` returns H (node 1), not E (node 0). -/
theorem AdjustedElement_spec_witness :
    AdjustedElement
      ⟨fun x => if x = 0 then 1 else 0,
       fun x => if x = 0 then some 1 else none,
       fun x => x == 1⟩ 2 0 0 = some (some 1) ∧ (1 : NodeId) ≠ 0 := by
  constructor
  · rw [(AdjustedElement_spec
      ⟨fun x => if x = 0 then 1 else 0,
       fun x => if x = 0 then some 1 else none,
       fun x => x == 1⟩ 2 0 0 [0, 1] (by decide)).1 (by decide)]
    rfl
  · decide

/-- The identifier-index part of a `TreeScope`'s state: the lazily created
`elements_by_id_` map (`none` = never created; the map itself is the
multiset of (key, element) entries) and the log of
`IdTargetObserverRegistry::NotifyObservers(key)` calls made so far. -/
structure IdIndexState where
  elementsById : Option (List (String × NodeId))
  notifyLog : List String
deriving DecidableEq

/-- Modelled from the spec: `TreeOrderedMap::Add` (declared outside this
source file) inserts one (key, element) occurrence into the multimap. -/
def mapAdd (m : List (String × NodeId)) (k : String) (e : NodeId) :
    List (String × NodeId) :=
  m ++ [(k, e)]

/-- Modelled from the spec: `TreeOrderedMap::Remove` (declared outside
this source file) removes one occurrence of (key, element); no-op when the
entry is not present. -/
def mapRemove (m : List (String × NodeId)) (k : String) (e : NodeId) :
    List (String × NodeId) :=
  m.erase (k, e)

/-- `TreeScope::AddElementById`: create the map if absent
(`elements_by_id_ = TreeOrderedMap::Create()`), `Add`, then
`id_target_observer_registry_->NotifyObservers(element_id)`. -/
def AddElementById (s : IdIndexState) (k : String) (e : NodeId) :
    IdIndexState :=
  let m := match s.elementsById with
           | none => []
           | some m => m
  { elementsById := some (mapAdd m k e),
    notifyLog := s.notifyLog ++ [k] }

/-- `TreeScope::RemoveElementById`: `if (!elements_by_id_) return;` —
an early return that skips the observer notification — else `Remove` then
`NotifyObservers(element_id)`. -/
def RemoveElementById (s : IdIndexState) (k : String) (e : NodeId) :
    IdIndexState :=
  match s.elementsById with
  | none => s
  | some m =>
    { elementsById := some (mapRemove m k e),
      notifyLog := s.notifyLog ++ [k] }

/-- Counterexample for C6: on a scope whose identifier index was never
created, `RemoveElementById` returns with the state — including the
notification log — unchanged: no observer notification fires, contrary to
the claim that the notification fires on every remove including when the
index is absent. -/
theorem RemoveElementById_absent_index_no_notification :
    RemoveElementById ⟨none, []⟩ "x" 0 = ⟨none, []⟩ ∧
    (RemoveElementById ⟨none, []⟩ "x" 0).notifyLog ≠ ["x"] := by
  constructor
  · rfl
  · intro h
    simp [RemoveElementById] at h

/-- C6 (amended): `AddElementById` notifies the per-scope observer
registry on every call (even when the element was already present), and
`RemoveElementById` notifies on every call on which the index exists (even
when the element is not present in it); but when the index is absent,
remove returns early without notifying, leaving the state unchanged. -/
theorem idIndex_notification_spec (s : IdIndexState) (k : String)
    (e : NodeId) :
    (AddElementById s k e).notifyLog = s.notifyLog ++ [k] ∧
    (s.elementsById = none → RemoveElementById s k e = s) ∧
    (∀ m, s.elementsById = some m →
      (RemoveElementById s k e).notifyLog = s.notifyLog ++ [k]) := by
  refine ⟨rfl, ?_, ?_⟩
  · intro hnone
    rw [RemoveElementById]
    rw [hnone]
  · intro m hm
    rw [RemoveElementById]
    rw [hm]

/-- Witness for C6's amended claim: with an existing (even empty) index,
removing a never-added element still notifies; with an absent index,
nothing happens. -/
theorem idIndex_notification_spec_witness :
    (AddElementById ⟨some [], []⟩ "x" 0).notifyLog = [] ++ ["x"] ∧
    (RemoveElementById ⟨none, ["y"]⟩ "x" 0 = ⟨none, ["y"]⟩) ∧
    (RemoveElementById ⟨some [], []⟩ "x" 0).notifyLog = [] ++ ["x"] :=
  ⟨(idIndex_notification_spec ⟨some [], []⟩ "x" 0).1,
   (idIndex_notification_spec ⟨none, ["y"]⟩ "x" 0).2.1 rfl,
   (idIndex_notification_spec ⟨some [], []⟩ "x" 0).2.2 [] rfl⟩

/-- First element of a nonempty list under the tree order `ord` (the
position of each element in document tree order), computed by a running
minimum. -/
def treeOrderFirst (ord : NodeId → Nat) : List NodeId → Option NodeId
  | [] => none
  | x :: xs =>
    some (xs.foldl (fun best c => if ord c < ord best then c else best) x)

/-- The elements of the multimap carrying `k`, in insertion order. -/
def keyEntries (m : List (String × NodeId)) (k : String) : List NodeId :=
  (m.filter (fun p => p.1 == k)).map (fun p => p.2)

/-- Modelled from the spec: `TreeOrderedMap::GetElementById` (declared
outside this source file) returns the tree-order-first element carrying
the key. -/
def mapGetById (ord : NodeId → Nat) (m : List (String × NodeId))
    (k : String) : Option NodeId :=
  treeOrderFirst ord (keyEntries m k)

/-- Modelled from the spec: `TreeOrderedMap::GetAllElementsById` (declared
outside this source file) returns all matching elements in tree order. -/
def insertByOrd (ord : NodeId → Nat) (x : NodeId) :
    List NodeId → List NodeId
  | [] => [x]
  | y :: t => if ord x ≤ ord y then x :: y :: t else y :: insertByOrd ord x t

def sortByOrd (ord : NodeId → Nat) : List NodeId → List NodeId
  | [] => []
  | x :: t => insertByOrd ord x (sortByOrd ord t)

def mapGetAllById (ord : NodeId → Nat) (m : List (String × NodeId))
    (k : String) : List NodeId :=
  sortByOrd ord (keyEntries m k)

/-- `TreeScope::getElementById` (state-passing form to make the frame
explicit): empty id → null; index never created → null, *without*
creating it; otherwise delegate to the map.  The state component is the
scope state after the call. -/
def getElementByIdS (ord : NodeId → Nat) (s : IdIndexState) (k : String) :
    Option NodeId × IdIndexState :=
  if k = "" then (none, s)
  else
    match s.elementsById with
    | none => (none, s)
    | some m => (mapGetById ord m k, s)

/-- `TreeScope::GetAllElementsById` (state-passing form): empty id →
empty vector; index never created → empty vector, without creating it. -/
def GetAllElementsByIdS (ord : NodeId → Nat) (s : IdIndexState)
    (k : String) : List NodeId × IdIndexState :=
  if k = "" then ([], s)
  else
    match s.elementsById with
    | none => ([], s)
    | some m => (mapGetAllById ord m k, s)

/-- The result of `TreeScope::getElementById`. -/
def getElementById (ord : NodeId → Nat) (s : IdIndexState) (k : String) :
    Option NodeId :=
  (getElementByIdS ord s k).1

/-- (key, element) is recorded in the scope's identifier index. -/
def idEntryMem (s : IdIndexState) (k : String) (e : NodeId) : Prop :=
  match s.elementsById with
  | none => False
  | some m => (k, e) ∈ m

instance (s : IdIndexState) (k : String) (e : NodeId) :
    Decidable (idEntryMem s k e) := by
  unfold idEntryMem
  cases s.elementsById with
  | none => exact inferInstanceAs (Decidable False)
  | some m => exact inferInstanceAs (Decidable ((k, e) ∈ m))

theorem foldlMin_mem (ord : NodeId → Nat) (xs : List NodeId) :
    ∀ x, xs.foldl (fun best c => if ord c < ord best then c else best) x ∈
      x :: xs := by
  induction xs with
  | nil => intro x; simp
  | cons y t ih =>
    intro x
    rw [List.foldl_cons]
    by_cases hc : ord y < ord x
    · rw [if_pos hc]
      rcases List.mem_cons.mp (ih y) with h | h
      · rw [h]
        exact List.mem_cons.mpr (Or.inr (List.mem_cons_self y t))
      · exact List.mem_cons.mpr (Or.inr (List.mem_cons.mpr (Or.inr h)))
    · rw [if_neg hc]
      rcases List.mem_cons.mp (ih x) with h | h
      · rw [h]
        exact List.mem_cons_self x (y :: t)
      · exact List.mem_cons.mpr (Or.inr (List.mem_cons.mpr (Or.inr h)))

theorem foldlMin_le (ord : NodeId → Nat) (xs : List NodeId) :
    ∀ x y, y ∈ x :: xs →
      ord (xs.foldl (fun best c => if ord c < ord best then c else best) x) ≤
        ord y := by
  induction xs with
  | nil =>
    intro x y hy
    simp at hy
    simp [hy]
  | cons z t ih =>
    intro x y hy
    rw [List.foldl_cons]
    have hminx : ord (if ord z < ord x then z else x) ≤ ord x := by
      by_cases hc : ord z < ord x
      · simp [if_pos hc]; exact Nat.le_of_lt hc
      · simp [if_neg hc]
    have hminz : ord (if ord z < ord x then z else x) ≤ ord z := by
      by_cases hc : ord z < ord x
      · simp [if_pos hc]
      · simp [if_neg hc]; exact Nat.le_of_not_lt hc
    have hhead := ih (if ord z < ord x then z else x)
      (if ord z < ord x then z else x) (List.mem_cons_self _ _)
    rcases List.mem_cons.mp hy with rfl | hy2
    · exact Nat.le_trans hhead hminx
    · rcases List.mem_cons.mp hy2 with rfl | hy3
      · exact Nat.le_trans hhead hminz
      · exact ih (if ord z < ord x then z else x) y
          (List.mem_cons.mpr (Or.inr hy3))

theorem mem_keyEntries (m : List (String × NodeId)) (k : String)
    (e : NodeId) : e ∈ keyEntries m k ↔ (k, e) ∈ m := by
  constructor
  · intro h
    obtain ⟨p, hp, hpe⟩ := List.mem_map.mp h
    obtain ⟨hpm, hpk⟩ := List.mem_filter.mp hp
    have hk : p.1 = k := by simpa using hpk
    have : p = (k, e) := by
      cases p
      simp only [] at hk hpe
      rw [hk, hpe]
    exact this ▸ hpm
  · intro h
    exact List.mem_map.mpr ⟨(k, e), List.mem_filter.mpr ⟨h, by simp⟩, rfl⟩

/-- C7: `getElementById` returns `none` on the empty key (never queried)
and when no element of this scope carries the key; when it returns an
element, that element carries the key and is tree-order-first among the
elements carrying it (no element with the key has a smaller tree-order
position); and when some element carries a nonempty key, the result is
not absent. -/
theorem getElementById_spec (ord : NodeId → Nat) (s : IdIndexState)
    (k : String) :
    (getElementById ord s "" = none) ∧
    ((∀ e, ¬ idEntryMem s k e) → getElementById ord s k = none) ∧
    (∀ r, getElementById ord s k = some r →
      idEntryMem s k r ∧ ∀ e, idEntryMem s k e → ord r ≤ ord e) ∧
    (k ≠ "" → ∀ e, idEntryMem s k e →
      (getElementById ord s k).isSome = true) := by
  refine ⟨by simp [getElementById, getElementByIdS], ?_, ?_, ?_⟩
  · intro hno
    by_cases hk : k = ""
    · simp [getElementById, getElementByIdS, hk]
    · cases hm : s.elementsById with
      | none => simp [getElementById, getElementByIdS, hk, hm]
      | some m =>
        have hentries : keyEntries m k = [] := by
          cases he : keyEntries m k with
          | nil => rfl
          | cons x t =>
            have : x ∈ keyEntries m k := he ▸ List.mem_cons_self x t
            have := (mem_keyEntries m k x).mp this
            exact absurd (by simp [idEntryMem, hm, this]) (hno x)
        simp [getElementById, getElementByIdS, hk, hm, mapGetById,
          hentries, treeOrderFirst]
  · intro r hr
    by_cases hk : k = ""
    · simp [getElementById, getElementByIdS, hk] at hr
    · cases hm : s.elementsById with
      | none => simp [getElementById, getElementByIdS, hk, hm] at hr
      | some m =>
        simp only [getElementById, getElementByIdS, if_neg hk, hm] at hr
        rw [mapGetById] at hr
        cases he : keyEntries m k with
        | nil => rw [he] at hr; simp [treeOrderFirst] at hr
        | cons x t =>
          rw [he] at hr
          simp only [treeOrderFirst, Option.some.injEq] at hr
          have hmem : r ∈ x :: t := hr ▸ foldlMin_mem ord t x
          constructor
          · have : r ∈ keyEntries m k := he ▸ hmem
            simp [idEntryMem, hm, (mem_keyEntries m k r).mp this]
          · intro e hee
            have : e ∈ keyEntries m k := by
              apply (mem_keyEntries m k e).mpr
              simpa [idEntryMem, hm] using hee
            rw [he] at this
            exact hr ▸ foldlMin_le ord t x e this
  · intro hk e hee
    cases hm : s.elementsById with
    | none => simp [idEntryMem, hm] at hee
    | some m =>
      have : e ∈ keyEntries m k := by
        apply (mem_keyEntries m k e).mpr
        simpa [idEntryMem, hm] using hee
      simp only [getElementById, getElementByIdS, if_neg hk, hm]
      rw [mapGetById]
      cases he : keyEntries m k with
      | nil => rw [he] at this; simp at this
      | cons x t => simp [treeOrderFirst]

/-- Witness for C7: an index holding elements 7 and 4 under `"x"` (element
4 earlier in tree order `ord = id`), and nothing under `"y"`.  `get("x")`
returns 4; `get("y")` and `get("")` return none. -/
theorem getElementById_spec_witness :
    (getElementById (fun n => n) ⟨some [("x", 7), ("x", 4)], []⟩ "" =
      none) ∧
    (getElementById (fun n => n) ⟨some [("x", 7), ("x", 4)], []⟩ "y" =
      none) ∧
    (idEntryMem ⟨some [("x", 7), ("x", 4)], []⟩ "x" 4 ∧
      ∀ e, idEntryMem ⟨some [("x", 7), ("x", 4)], []⟩ "x" e →
        (fun n => n) 4 ≤ (fun n => n) e) ∧
    (getElementById (fun n => n) ⟨some [("x", 7), ("x", 4)], []⟩
        "x").isSome = true := by
  refine ⟨(getElementById_spec (fun n => n)
      ⟨some [("x", 7), ("x", 4)], []⟩ "y").1, ?_, ?_, ?_⟩
  · exact (getElementById_spec (fun n => n)
      ⟨some [("x", 7), ("x", 4)], []⟩ "y").2.1
      (by intro e he; simp [idEntryMem] at he)
  · exact (getElementById_spec (fun n => n)
      ⟨some [("x", 7), ("x", 4)], []⟩ "x").2.2.1 4 (by decide)
  · exact (getElementById_spec (fun n => n)
      ⟨some [("x", 7), ("x", 4)], []⟩ "x").2.2.2 (by decide) 4 (by decide)

/-- C10: the read operations `getElementById` and `GetAllElementsById`
leave the scope state — in particular the lazily created index — exactly
as it was; `RemoveElementById` on an absent index changes nothing; only
`AddElementById` creates the index when absent. -/
theorem index_lazy_creation_spec (ord : NodeId → Nat) (s : IdIndexState)
    (k : String) (e : NodeId) :
    (getElementByIdS ord s k).2 = s ∧
    (GetAllElementsByIdS ord s k).2 = s ∧
    (s.elementsById = none → RemoveElementById s k e = s) ∧
    (s.elementsById = none →
      (AddElementById s k e).elementsById = some (mapAdd [] k e)) := by
  refine ⟨?_, ?_, ?_, ?_⟩
  · by_cases hk : k = "" <;> cases hm : s.elementsById <;>
      simp [getElementByIdS, hk, hm]
  · by_cases hk : k = "" <;> cases hm : s.elementsById <;>
      simp [GetAllElementsByIdS, hk, hm]
  · intro hm
    rw [RemoveElementById, hm]
  · intro hm
    rw [AddElementById]
    rw [hm]

/-- Witness for C10: with no index and a nonempty key, both reads leave
the state untouched, remove is the identity, and add creates the index. -/
theorem index_lazy_creation_spec_witness :
    (getElementByIdS (fun n => n) ⟨none, []⟩ "x").2 = ⟨none, []⟩ ∧
    (GetAllElementsByIdS (fun n => n) ⟨none, []⟩ "x").2 = ⟨none, []⟩ ∧
    RemoveElementById ⟨none, []⟩ "x" 3 = ⟨none, []⟩ ∧
    (AddElementById ⟨none, []⟩ "x" 3).elementsById =
      some (mapAdd [] "x" 3) :=
  ⟨(index_lazy_creation_spec (fun n => n) ⟨none, []⟩ "x" 3).1,
   (index_lazy_creation_spec (fun n => n) ⟨none, []⟩ "x" 3).2.1,
   (index_lazy_creation_spec (fun n => n) ⟨none, []⟩ "x" 3).2.2.1 rfl,
   (index_lazy_creation_spec (fun n => n) ⟨none, []⟩ "x" 3).2.2.2 rfl⟩

/-- An element of the document tree for the access-key scan: its
identifier, its `accesskey` attribute value (`""` = absent), the stack of
shadow-root contents hosted on it (newest generation first, as walked by
`YoungestShadowRoot()` / `OlderShadowRoot()` — each generation is the list
of top-level elements under that shadow root), and its light-DOM
children. -/
inductive ETree : Type where
  | elem (id : NodeId) (attr : String) (shadows : List (List ETree))
      (children : List ETree)

/-- Modelled from the spec: `DeprecatedEqualIgnoringCase` (a string
utility declared outside this source file), case-insensitive equality. -/
def eqIgnoreCase (a b : String) : Bool :=
  a.data.map Char.toLower == b.data.map Char.toLower

mutual

/-- One step of the outer loop of `TreeScope::GetElementByAccessKey` at
element `t`: check the element's `accesskey` attribute (overwriting
`result` on a match), dive into its shadow-generation stack, then continue
with its children — together this is the flat
`ElementTraversal::DescendantsOf` iteration with the shadow dive done at
each element's position. -/
def scanT (key : String) (acc : Option NodeId) : ETree → Option NodeId
  | .elem i attr shadows children =>
    let acc1 := if eqIgnoreCase attr key then some i else acc
    let acc2 := scanShadows key acc1 shadows
    scanL key acc2 children

/-- The `for (shadow_root = element.YoungestShadowRoot(); shadow_root;
shadow_root = shadow_root->OlderShadowRoot())` loop: recursively scan each
generation with a fresh result (`shadow_root->GetElementByAccessKey(key)`)
and overwrite `result` only when the sub-scan found something. -/
def scanShadows (key : String) (acc : Option NodeId) :
    List (List ETree) → Option NodeId
  | [] => acc
  | g :: rest =>
    let sub := if key = "" then none else scanL key none g
    scanShadows key (if sub.isSome then sub else acc) rest

/-- Scan a list of sibling elements in document order, threading
`result`. -/
def scanL (key : String) (acc : Option NodeId) :
    List ETree → Option NodeId
  | [] => acc
  | t :: rest => scanL key (scanT key acc t) rest

end

/-- `TreeScope::GetElementByAccessKey(key)`: null for the empty key,
otherwise the scan of the scope's sub-tree (given by the root node's list
of top-level elements) with `result` initially null. -/
def GetElementByAccessKey (key : String) (roots : List ETree) :
    Option NodeId :=
  if key = "" then none else scanL key none roots

mutual

/-- The identifiers of the access-key matches inside one element's
composite visiting order: the element itself, then its shadow-generation
stack (newest first), then its children. -/
def matchesT (key : String) : ETree → List NodeId
  | .elem i attr shadows children =>
    (if eqIgnoreCase attr key then [i] else []) ++
      matchesShadows key shadows ++ matchesL key children

def matchesShadows (key : String) : List (List ETree) → List NodeId
  | [] => []
  | g :: rest => matchesL key g ++ matchesShadows key rest

def matchesL (key : String) : List ETree → List NodeId
  | [] => []
  | t :: rest => matchesT key t ++ matchesL key rest

end

theorem lastOf_append (l1 l2 : List Nat) :
    (l1 ++ l2).getLast? = orD l2.getLast? l1.getLast? := by
  rw [List.getLast?_append]
  cases h : l2.getLast? <;> rfl

theorem orD_assoc (a b c : Option Nat) :
    orD (orD a b) c = orD a (orD b c) := by
  cases a <;> rfl

mutual

theorem scanT_eq (key : String) (hk : key ≠ "") (t : ETree) :
    ∀ acc, scanT key acc t = orD (matchesT key t).getLast? acc := by
  cases t with
  | elem i attr shadows children =>
    intro acc
    rw [scanT, matchesT]
    rw [scanL_eq key hk children, scanShadows_eq key hk shadows]
    rw [lastOf_append, lastOf_append, orD_assoc, orD_assoc]
    have hhead : orD (if eqIgnoreCase attr key then [i] else
        ([] : List NodeId)).getLast? acc =
        (if eqIgnoreCase attr key then some i else acc) := by
      by_cases hm : eqIgnoreCase attr key <;> simp [hm, orD]
    rw [hhead]
termination_by sizeOf t

theorem scanShadows_eq (key : String) (hk : key ≠ "")
    (gs : List (List ETree)) :
    ∀ acc, scanShadows key acc gs =
      orD (matchesShadows key gs).getLast? acc := by
  cases gs with
  | nil => intro acc; rw [scanShadows, matchesShadows]; rfl
  | cons g rest =>
    intro acc
    rw [scanShadows, matchesShadows]
    rw [scanShadows_eq key hk rest, lastOf_append, orD_assoc]
    have hsub : (if (if key = "" then none
          else scanL key none g).isSome then
            (if key = "" then none else scanL key none g)
          else acc) = orD (matchesL key g).getLast? acc := by
      rw [if_neg hk, scanL_eq key hk g]
      cases hg : (matchesL key g).getLast? <;> simp [orD]
    rw [hsub]
termination_by sizeOf gs

theorem scanL_eq (key : String) (hk : key ≠ "") (l : List ETree) :
    ∀ acc, scanL key acc l = orD (matchesL key l).getLast? acc := by
  cases l with
  | nil => intro acc; rw [scanL, matchesL]; rfl
  | cons t rest =>
    intro acc
    rw [scanL, matchesL]
    rw [scanL_eq key hk rest, scanT_eq key hk t, lastOf_append, orD_assoc]
termination_by sizeOf l

end

/-- C9: for every non-empty key, `GetElementByAccessKey` returns the
*last* match of the composite visiting order — the depth-first scan of
the scope's sub-tree that at each element dives into its stack of shadow
generations (newest to oldest) before continuing — and `none` when no
element matches. -/
theorem GetElementByAccessKey_spec (key : String) (roots : List ETree)
    (hk : key ≠ "") :
    GetElementByAccessKey key roots = (matchesL key roots).getLast? ∧
    (matchesL key roots = [] → GetElementByAccessKey key roots = none) := by
  have h := scanL_eq key hk roots none
  have hmain : GetElementByAccessKey key roots =
      (matchesL key roots).getLast? := by
    rw [GetElementByAccessKey, if_neg hk, h]
    cases hg : (matchesL key roots).getLast? <;> rfl
  exact ⟨hmain, fun hnil => by rw [hmain, hnil]; rfl⟩

/-- Witness for C9: element 1 matches, its (single) shadow generation
holds matching element 2, and sibling element 3 matches later in document
order; the scan returns 3, the last match in composite order.  In a
second tree, a host with two shadow generations (newest holds matching 2,
 older holds matching 4) yields 4: the older generation is visited last
and overrides. -/
theorem GetElementByAccessKey_spec_witness :
    GetElementByAccessKey "k"
      [.elem 1 "k" [[.elem 2 "k" [] []]] [], .elem 3 "k" [] []] =
      some 3 ∧
    GetElementByAccessKey "k"
      [.elem 1 "" [[.elem 2 "k" [] []], [.elem 4 "k" [] []]] []] =
      some 4 := by
  have hkk : eqIgnoreCase "k" "k" = true := by decide
  have hek : eqIgnoreCase "" "k" = false := by decide
  constructor
  · rw [(GetElementByAccessKey_spec "k"
      [.elem 1 "k" [[.elem 2 "k" [] []]] [], .elem 3 "k" [] []]
      (by decide)).1]
    simp [matchesL, matchesT, matchesShadows, hkk]
  · rw [(GetElementByAccessKey_spec "k"
      [.elem 1 "" [[.elem 2 "k" [] []], [.elem 4 "k" [] []]] []]
      (by decide)).1]
    simp [matchesL, matchesT, matchesShadows, hkk, hek]
